import Mathlib

/-!
# Verification of the crypto scalping bot core

Shallow embedding of the position-lifecycle engine of the repository
(`src/bot/risk.py`, `src/bot/strategy.py`, `src/bot/runner.py`,
`src/bot/exchange.py`, `src/bot/database.py`).  Python floats are
modelled as exact rationals (`ℚ`), `Optional[T]` as `Option T`,
exceptions as `Except`, and the SQLite tables as Lean lists.
-/

namespace ScalpBot

/-! ## Risk sizer (`src/bot/risk.py`) -/

/-- `round_step(value, decimals)`: truncate `value` toward zero at
`decimals` decimal places — `floor(value * factor) / factor`. -/
def round_step (value : ℚ) (decimals : ℕ) : ℚ :=
  let factor : ℚ := 10 ^ decimals
  (⌊value * factor⌋ : ℚ) / factor

/-- `compute_futures_order_qty_usdt` from `src/bot/risk.py`: returns `0`
when `price ≤ 0` or `leverage ≤ 0`, otherwise the truncated quantity
`(max_notional_usdt * leverage) / price`. -/
def compute_futures_order_qty_usdt (max_notional_usdt price : ℚ) (leverage : ℤ)
    (amount_decimals : ℕ) : ℚ :=
  if price ≤ 0 ∨ leverage ≤ 0 then 0
  else round_step (max_notional_usdt * leverage / price) amount_decimals

lemma round_step_le (value : ℚ) (decimals : ℕ) :
    round_step value decimals ≤ value := by
  unfold round_step
  have hfac : (0:ℚ) < 10 ^ decimals := by positivity
  rw [div_le_iff₀ hfac]
  exact Int.floor_le _

/-! ## Signal generator (`src/bot/strategy.py`) -/

inductive Signal
  | buy
  | sell
  deriving DecidableEq, Repr

/-- `sma(values, period)` = `statistics.fmean(values[-period:])`:
the mean of the last `period` closes (for `period = 0` the Python slice
`values[-0:]` is the whole list). -/
def sma (values : List ℚ) (period : ℕ) : ℚ :=
  let window := if period = 0 then values else values.drop (values.length - period)
  window.sum / window.length

/-- The per-symbol strategy object: the two window lengths and the
previous cycle's pair of averages (`None` before the first full call). -/
structure SMAScalpingStrategy where
  fast : ℕ
  slow : ℕ
  last_fast : Option ℚ
  last_slow : Option ℚ
  deriving DecidableEq, Repr

/-- `SMAScalpingStrategy.signal(closes)` from `src/bot/strategy.py`:
returns the emitted signal and the updated strategy state. -/
def SMAScalpingStrategy.signal (s : SMAScalpingStrategy) (closes : List ℚ) :
    Option Signal × SMAScalpingStrategy :=
  if closes.length < s.slow + 1 then (none, s)
  else
    let fast_now := sma closes s.fast
    let slow_now := sma closes s.slow
    let sig : Option Signal :=
      match s.last_fast, s.last_slow with
      | some lf, some ls =>
          if lf ≤ ls ∧ slow_now < fast_now then some .buy
          else if ls ≤ lf ∧ fast_now < slow_now then some .sell
          else none
      | _, _ => none
    (sig, { s with last_fast := some fast_now, last_slow := some slow_now })

/-! ## Claim C4 — risk sizer -/

/-- **C4.** The risk sizer computes
`floor_to_decimals((capRemaining × leverage) / price, qtyDecimals)`;
for `capRemaining > 0`, `price > 0`, `leverage ≥ 1` the truncated result
satisfies `result × price ≤ capRemaining × leverage`, and the result is
`0` whenever `price ≤ 0` or `leverage ≤ 0`. -/
theorem risk_sizer_spec (cap price : ℚ) (leverage : ℤ) (d : ℕ)
    (hcap : 0 < cap) (hp : 0 < price) (hl : 1 ≤ leverage) :
    compute_futures_order_qty_usdt cap price leverage d
        = round_step (cap * leverage / price) d
    ∧ compute_futures_order_qty_usdt cap price leverage d * price ≤ cap * leverage
    ∧ (∀ (c p : ℚ) (l : ℤ) (d2 : ℕ), p ≤ 0 ∨ l ≤ 0 →
        compute_futures_order_qty_usdt c p l d2 = 0) := by
  have hnot : ¬ (price ≤ 0 ∨ leverage ≤ 0) := by
    push_neg
    exact ⟨hp, by omega⟩
  have heq : compute_futures_order_qty_usdt cap price leverage d
      = round_step (cap * leverage / price) d := by
    unfold compute_futures_order_qty_usdt
    exact if_neg hnot
  refine ⟨heq, ?_, ?_⟩
  · have hle : compute_futures_order_qty_usdt cap price leverage d
        ≤ cap * leverage / price := by
      rw [heq]
      exact round_step_le _ _
    calc compute_futures_order_qty_usdt cap price leverage d * price
        ≤ (cap * leverage / price) * price :=
          mul_le_mul_of_nonneg_right hle (le_of_lt hp)
      _ = cap * leverage := div_mul_cancel₀ _ (ne_of_gt hp)
  · intro c p l d2 h
    unfold compute_futures_order_qty_usdt
    exact if_pos h

/-- Witness for C4 at `cap = 50`, `price = 4`, `leverage = 5`, `d = 2`. -/
theorem risk_sizer_spec_witness :
    ((0:ℚ) < 50 ∧ (0:ℚ) < 4 ∧ (1:ℤ) ≤ 5)
    ∧ (compute_futures_order_qty_usdt 50 4 5 2
        = round_step (50 * (5:ℤ) / 4) 2
      ∧ compute_futures_order_qty_usdt 50 4 5 2 * 4 ≤ 50 * (5:ℤ)
      ∧ (∀ (c p : ℚ) (l : ℤ) (d2 : ℕ), p ≤ 0 ∨ l ≤ 0 →
          compute_futures_order_qty_usdt c p l d2 = 0)) :=
  ⟨⟨by norm_num, by norm_num, by norm_num⟩,
    risk_sizer_spec 50 4 5 2 (by norm_num) (by norm_num) (by norm_num)⟩

/-! ## Claim C5 — crossover characterisation -/

/-- **C5.** With at least `slow + 1` closes and a seeded previous pair,
the generator emits `buy` exactly on an upward cross (previous fast ≤
previous slow and current fast > current slow), `sell` exactly on the
symmetric downward cross, and `none` otherwise; it emits `none` whenever
fewer than `slow + 1` closes are available or on the very first call
(previous pair unseeded). -/
theorem signal_crossover_spec (s : SMAScalpingStrategy) (closes : List ℚ)
    (lf ls : ℚ) (hlen : s.slow + 1 ≤ closes.length)
    (hf : s.last_fast = some lf) (hs : s.last_slow = some ls) :
    ((s.signal closes).1 = some Signal.buy
        ↔ lf ≤ ls ∧ sma closes s.slow < sma closes s.fast)
    ∧ ((s.signal closes).1 = some Signal.sell
        ↔ ls ≤ lf ∧ sma closes s.fast < sma closes s.slow)
    ∧ ((s.signal closes).1 = none
        ↔ ¬ (lf ≤ ls ∧ sma closes s.slow < sma closes s.fast)
          ∧ ¬ (ls ≤ lf ∧ sma closes s.fast < sma closes s.slow))
    ∧ (∀ (s2 : SMAScalpingStrategy) (cs : List ℚ),
        cs.length < s2.slow + 1 → (s2.signal cs).1 = none)
    ∧ (∀ (s2 : SMAScalpingStrategy) (cs : List ℚ),
        s2.last_fast = none ∨ s2.last_slow = none → (s2.signal cs).1 = none) := by
  have hnotlt : ¬ closes.length < s.slow + 1 := not_lt.mpr hlen
  refine ⟨?_, ?_, ?_, ?_, ?_⟩
  · unfold SMAScalpingStrategy.signal
    rw [if_neg hnotlt, hf, hs]
    simp only
    split_ifs with h1 h2 <;> simp_all
  · unfold SMAScalpingStrategy.signal
    rw [if_neg hnotlt, hf, hs]
    simp only
    split_ifs with h1 h2 <;> simp_all
    exact fun _ => le_of_lt h1.2
  · unfold SMAScalpingStrategy.signal
    rw [if_neg hnotlt, hf, hs]
    simp only
    split_ifs with h1 h2 <;> simp_all
  · intro s2 cs hlt
    unfold SMAScalpingStrategy.signal
    rw [if_pos hlt]
  · intro s2 cs h
    unfold SMAScalpingStrategy.signal
    split_ifs with hcase
    · rfl
    · rcases h with h | h <;> simp only [h] <;> rcases hfs : s2.last_fast <;>
        rcases hss : s2.last_slow <;> simp_all

/-- Witness for C5: `fast = 1`, `slow = 2`, previous pair `(1, 2)`,
closes `[1, 2, 3]` (upward cross ⇒ `buy`). -/
theorem signal_crossover_spec_witness :
    ((⟨1, 2, some 1, some 2⟩ : SMAScalpingStrategy).slow + 1 ≤ ([1, 2, 3] : List ℚ).length
      ∧ (⟨1, 2, some 1, some 2⟩ : SMAScalpingStrategy).last_fast = some 1
      ∧ (⟨1, 2, some 1, some 2⟩ : SMAScalpingStrategy).last_slow = some 2)
    ∧ (((⟨1, 2, some 1, some 2⟩ : SMAScalpingStrategy).signal [1, 2, 3]).1 = some Signal.buy
        ↔ (1:ℚ) ≤ 2 ∧ sma [1, 2, 3] 2 < sma [1, 2, 3] 1) :=
  ⟨⟨by decide, rfl, rfl⟩,
    (signal_crossover_spec ⟨1, 2, some 1, some 2⟩ [1, 2, 3] 1 2
      (by decide) rfl rfl).1⟩

/-! ## Claim C6 — unconditional state update -/

/-- **C6.** On every call of the generator over its contract domain
(at least `slow + 1` closes, so the current averages exist), the stored
previous pair is replaced by the current averages — whether or not a
signal fires, and whatever the previous pair was. -/
theorem signal_state_update (s : SMAScalpingStrategy) (closes : List ℚ)
    (hlen : s.slow + 1 ≤ closes.length) :
    (s.signal closes).2.last_fast = some (sma closes s.fast)
    ∧ (s.signal closes).2.last_slow = some (sma closes s.slow)
    ∧ (s.signal closes).2.fast = s.fast
    ∧ (s.signal closes).2.slow = s.slow := by
  have hnotlt : ¬ closes.length < s.slow + 1 := not_lt.mpr hlen
  unfold SMAScalpingStrategy.signal
  rw [if_neg hnotlt]
  exact ⟨rfl, rfl, rfl, rfl⟩

/-- Witness for C6: a call that fires no signal (previous pair `(2, 1)`,
no cross) still stores the current averages. -/
theorem signal_state_update_witness :
    ((⟨1, 2, some 2, some 1⟩ : SMAScalpingStrategy).slow + 1 ≤ ([1, 2, 3] : List ℚ).length)
    ∧ ((⟨1, 2, some 2, some 1⟩ : SMAScalpingStrategy).signal [1, 2, 3]).2.last_fast
        = some (sma [1, 2, 3] 1)
    ∧ ((⟨1, 2, some 2, some 1⟩ : SMAScalpingStrategy).signal [1, 2, 3]).2.last_slow
        = some (sma [1, 2, 3] 2)
    ∧ ((⟨1, 2, some 2, some 1⟩ : SMAScalpingStrategy).signal [1, 2, 3]).2.fast = 1
    ∧ ((⟨1, 2, some 2, some 1⟩ : SMAScalpingStrategy).signal [1, 2, 3]).2.slow = 2 :=
  ⟨by decide, signal_state_update ⟨1, 2, some 2, some 1⟩ [1, 2, 3] (by decide)⟩

/-! ## Position and engine (`src/bot/runner.py`, `src/bot/database.py`) -/

inductive Side
  | long
  | short
  deriving DecidableEq, Repr

/-- In-memory `Position` object of `src/bot/runner.py`. -/
structure Position where
  side : Option Side
  entry_price : Option ℚ
  qty : ℚ
  tp : Option ℚ
  sl : Option ℚ
  entry_time : Option ℚ
  deriving DecidableEq, Repr

/-- `Position.__init__`: everything unset, quantity `0`. -/
def Position.initial : Position :=
  ⟨none, none, 0, none, none, none⟩

/-- `Position.is_open`: `side is not None and qty > 0`. -/
def Position.is_open (p : Position) : Bool :=
  p.side.isSome && decide (0 < p.qty)

/-- `Position.open(side, entry, qty, tp, sl)` (entry time stamped `now`). -/
def Position.openPos (p : Position) (side : Side) (entry qty tp sl now : ℚ) : Position :=
  { p with
    side := some side
    entry_price := some entry
    qty := qty
    tp := some tp
    sl := some sl
    entry_time := some now }

/-- `Position.close`: every field reset. -/
def Position.close (p : Position) : Position :=
  { p with
    side := none
    entry_price := none
    qty := 0
    tp := none
    sl := none
    entry_time := none }

/-- Database row `PositionState` of `src/bot/database.py`. -/
structure PositionState where
  symbol : String
  side : Option Side
  entry_price : Option ℚ
  qty : ℚ
  tp : Option ℚ
  sl : Option ℚ
  entry_time : Option ℚ
  deriving DecidableEq, Repr

def Position.to_position_state (p : Position) (symbol : String) : PositionState :=
  ⟨symbol, p.side, p.entry_price, p.qty, p.tp, p.sl, p.entry_time⟩

def Position.from_position_state (st : PositionState) : Position :=
  ⟨st.side, st.entry_price, st.qty, st.tp, st.sl, st.entry_time⟩

/-- `Database.save_position`: a `None` side deletes the symbol's row,
otherwise the row is upserted.  The result is the stored row. -/
def save_position (st : PositionState) : Option PositionState :=
  match st.side with
  | none => none
  | some _ => some st

/-- `Database.load_position`: return the stored row, if any. -/
def load_position (row : Option PositionState) : Option PositionState :=
  row

/-- `BotRunner._load_positions` for one symbol: start from a fresh
`Position()` and populate it only when a saved state with a non-`None`
side exists. -/
def load_positions_step (row : Option PositionState) : Position :=
  match load_position row with
  | some st => if st.side.isSome then Position.from_position_state st else Position.initial
  | none => Position.initial

/-- Completed-trade row `TradeRecord` of `src/bot/database.py`. -/
structure TradeRecord where
  symbol : String
  side : Side
  qty : ℚ
  entry_price : ℚ
  exit_price : ℚ
  entry_time : ℚ
  exit_time : ℚ
  reason : String
  pnl : ℚ
  deriving DecidableEq, Repr

/-- `BotRunner._save_trade_record`: P&L is `(exit − entry) × qty` for a
long and `(entry − exit) × qty` for a short. -/
def mk_trade_record (symbol : String) (side : Side) (qty entry_price exit_price
    entry_time now : ℚ) (reason : String) : TradeRecord :=
  let pnl_per_unit :=
    match side with
    | .long => exit_price - entry_price
    | .short => entry_price - exit_price
  ⟨symbol, side, qty, entry_price, exit_price, entry_time, now, reason, pnl_per_unit * qty⟩

/-- Python truthiness of an `Optional[float]`: `None` and `0.0` are falsy. -/
def truthy (v : Option ℚ) : Bool :=
  match v with
  | none => false
  | some x => decide (x ≠ 0)

/-- Python `round(x, d)` on the exact rational value
(round half to even). -/
def pyRound (x : ℚ) (d : ℕ) : ℚ :=
  let factor : ℚ := 10 ^ d
  let y := x * factor
  let fl := ⌊y⌋
  let n : ℤ :=
    if y - fl < 1/2 then fl
    else if (1:ℚ)/2 < y - fl then fl + 1
    else if Even fl then fl else fl + 1
  (n : ℚ) / factor

/-- Outcome of one attempt of a remote call. -/
inductive AttemptOutcome
  | ok
  | netErr
  | otherErr
  deriving DecidableEq, Repr

/-- `ExchangeClient.create_market_order`: up to 3 attempts (a network
failure rebuilds the connection, any other failure waits and retries in
place); the first successful attempt returns, and after 3 failed
attempts the call raises `RuntimeError` (modelled as `none`). -/
def create_market_order (attempts : ℕ → AttemptOutcome) : Option Unit :=
  if attempts 0 = .ok then some ()
  else if attempts 1 = .ok then some ()
  else if attempts 2 = .ok then some ()
  else none

/-- Oracle handing each successive `create_market_order` call its
per-attempt outcomes; an exhausted oracle means the call succeeds. -/
abbrev OrderOracle := List (ℕ → AttemptOutcome)

def popCall (o : OrderOracle) : (ℕ → AttemptOutcome) × OrderOracle :=
  match o with
  | [] => (fun _ => .ok, [])
  | f :: rest => (f, rest)

/-- Observable effects of one poll cycle, in program order: order
placement, Telegram notifications, and database writes. -/
inductive Event
  | orderPlaced (symbol : String) (side : Signal) (amount : ℚ) (reduce_only : Bool)
  | notifyOpen (symbol : String) (side : Side) (qty entry tp sl : ℚ)
  | notifyClose (symbol : String) (side : Side) (qty exit_price : ℚ) (reason : String)
  | notifyError (symbol : String)
  | saveTrade (t : TradeRecord)
  | savePosition (st : PositionState)
  deriving DecidableEq, Repr

/-- Engine step outcome: `error` carries the in-memory position and the
events already emitted when a remote order call raised; `ok` carries the
position, the emitted events and the remaining oracle. -/
abbrev StepResult := Except (Position × List Event) (Position × List Event × OrderOracle)

/-- The common close sequence of `runner.py` (TP, SL and signal-change
branches): reduce-only order, close notification, trade record,
in-memory close, position persistence — in that order. -/
def close_flow (symbol : String) (oracle : OrderOracle) (pos : Position)
    (order_side : Signal) (closed_side : Side) (last_price now : ℚ)
    (notify_reason trade_reason : String) : StepResult :=
  let att := (popCall oracle).1
  let rest := (popCall oracle).2
  match create_market_order att with
  | none => .error (pos, [])
  | some _ =>
      let tr := mk_trade_record symbol closed_side pos.qty (pos.entry_price.getD 0)
        last_price (pos.entry_time.getD 0) now trade_reason
      let pos2 := pos.close
      .ok (pos2,
        [.orderPlaced symbol order_side pos.qty true,
         .notifyClose symbol closed_side pos.qty last_price notify_reason,
         .saveTrade tr,
         .savePosition (pos2.to_position_state symbol)], rest)

/-- `BotRunner._handle_position`: client-side TP/SL evaluation.  Each
threshold is tested for Python truthiness before the price comparison. -/
def handle_position (symbol : String) (oracle : OrderOracle) (pos : Position)
    (last_price now : ℚ) : StepResult :=
  if pos.is_open then
    match pos.side with
    | some .long =>
        if truthy pos.tp && decide (pos.tp.getD 0 ≤ last_price) then
          close_flow symbol oracle pos .sell .long last_price now "take-profit" "take-profit"
        else if truthy pos.sl && decide (last_price ≤ pos.sl.getD 0) then
          close_flow symbol oracle pos .sell .long last_price now "stop-loss" "stop-loss"
        else .ok (pos, [], oracle)
    | some .short =>
        if truthy pos.tp && decide (last_price ≤ pos.tp.getD 0) then
          close_flow symbol oracle pos .buy .short last_price now "take-profit" "take-profit"
        else if truthy pos.sl && decide (pos.sl.getD 0 ≤ last_price) then
          close_flow symbol oracle pos .buy .short last_price now "stop-loss" "stop-loss"
        else .ok (pos, [], oracle)
    | none => .ok (pos, [], oracle)
  else .ok (pos, [], oracle)

/-- Trading configuration fields used by the engine (`src/bot/config.py`). -/
structure Config where
  max_notional_usdt : ℚ
  leverage : ℤ
  tp_pct : ℚ
  sl_pct : ℚ
  deriving DecidableEq, Repr

/-- The entry sequence of `runner.py`: non-reduce-only order, in-memory
open, position persistence, open notification — in that order. -/
def entry_flow (cfg : Config) (symbol : String) (oracle : OrderOracle)
    (pos : Position) (order_side : Signal) (opened_side : Side)
    (last_price now : ℚ) (amt_dec prc_dec : ℕ) (tp sl : ℚ) : StepResult :=
  let qty := compute_futures_order_qty_usdt cfg.max_notional_usdt last_price
    cfg.leverage amt_dec
  if 0 < qty then
    let att := (popCall oracle).1
    let rest := (popCall oracle).2
    match create_market_order att with
    | none => .error (pos, [])
    | some _ =>
        let entry := last_price
        let tpr := pyRound (entry * tp) prc_dec
        let slr := pyRound (entry * sl) prc_dec
        let pos2 := pos.openPos opened_side entry qty tpr slr now
        .ok (pos2,
          [.orderPlaced symbol order_side qty false,
           .savePosition (pos2.to_position_state symbol),
           .notifyOpen symbol opened_side qty entry tpr slr], rest)
  else .ok (pos, [], oracle)

/-- `BotRunner._maybe_enter`: on an opposite signal an open position is
closed (reduce-only, notify reason `señal contraria`, trade-record
reason `signal-change`); only a position already flat at the start of
the call can trigger an entry. -/
def maybe_enter (cfg : Config) (symbol : String) (oracle : OrderOracle)
    (pos : Position) (sig : Option Signal) (last_price now : ℚ)
    (amt_dec prc_dec : ℕ) : StepResult :=
  match sig with
  | some .buy =>
      if pos.is_open then
        if pos.side = some .short then
          close_flow symbol oracle pos .buy .short last_price now
            "señal contraria" "signal-change"
        else .ok (pos, [], oracle)
      else
        entry_flow cfg symbol oracle pos .buy .long last_price now amt_dec prc_dec
          (1 + cfg.tp_pct) (1 - cfg.sl_pct)
  | some .sell =>
      if pos.is_open then
        if pos.side = some .long then
          close_flow symbol oracle pos .sell .long last_price now
            "señal contraria" "signal-change"
        else .ok (pos, [], oracle)
      else
        entry_flow cfg symbol oracle pos .sell .short last_price now amt_dec prc_dec
          (1 - cfg.tp_pct) (1 + cfg.sl_pct)
  | none => .ok (pos, [], oracle)

/-- One symbol's body of `BotRunner._trading_loop`: `_handle_position`
then `_maybe_enter`; a raised order error is caught by the loop, which
notifies the error and moves on, keeping every effect already made. -/
def symbol_cycle (cfg : Config) (symbol : String) (oracle : OrderOracle)
    (pos : Position) (sig : Option Signal) (last_price now : ℚ)
    (amt_dec prc_dec : ℕ) : Position × List Event :=
  match handle_position symbol oracle pos last_price now with
  | .error (p, evs) => (p, evs ++ [.notifyError symbol])
  | .ok (p, evs, rest) =>
      match maybe_enter cfg symbol rest p sig last_price now amt_dec prc_dec with
      | .error (p2, evs2) => (p2, evs ++ evs2 ++ [.notifyError symbol])
      | .ok (p2, evs2, _) => (p2, evs ++ evs2)

/-- Per-symbol inputs of one pass of the trading loop. -/
structure SymbolInput where
  symbol : String
  oracle : OrderOracle
  pos : Position
  sig : Option Signal
  last_price : ℚ
  now : ℚ
  amt_dec : ℕ
  prc_dec : ℕ

/-- One pass of `_trading_loop` over the configured symbols: each
symbol's cycle runs on its own position with its own data. -/
def run_pass (cfg : Config) (inputs : List SymbolInput) : List (Position × List Event) :=
  inputs.map (fun i =>
    symbol_cycle cfg i.symbol i.oracle i.pos i.sig i.last_price i.now i.amt_dec i.prc_dec)

/-- Events of a step, whether or not it raised. -/
def stepEvents (r : StepResult) : List Event :=
  match r with
  | .error (_, evs) => evs
  | .ok (_, evs, _) => evs

def isEntryOrder (e : Event) : Bool :=
  match e with
  | .orderPlaced _ _ _ reduce_only => !reduce_only
  | _ => false

/-- A notification or a durable trade row carrying the given exit reason. -/
def isExitWithReason (reason : String) (e : Event) : Bool :=
  match e with
  | .notifyClose _ _ _ _ r => r = reason
  | .saveTrade t => t.reason = reason
  | _ => false

def isSavePositionEvent (e : Event) : Bool :=
  match e with
  | .savePosition _ => true
  | _ => false

def isCloseNotification (e : Event) : Bool :=
  match e with
  | .notifyClose _ _ _ _ _ => true
  | _ => false

def isOpenNotification (e : Event) : Bool :=
  match e with
  | .notifyOpen _ _ _ _ _ _ => true
  | _ => false

def isPersistEvent (e : Event) : Bool :=
  match e with
  | .savePosition _ => true
  | .saveTrade _ => true
  | _ => false

/-- The position invariant of the data model: `side = none` ⇔
`quantity = 0` ⇔ entry price, TP, SL and entry timestamp all unset. -/
def Position.invariant (p : Position) : Prop :=
  (p.side = none ↔ p.qty = 0)
  ∧ (p.side = none ↔ p.entry_price = none ∧ p.tp = none ∧ p.sl = none ∧ p.entry_time = none)

instance (p : Position) : Decidable p.invariant := by
  unfold Position.invariant
  infer_instance

lemma truthy_eq_false (v : Option ℚ) : truthy v = false ↔ v = none ∨ v = some 0 := by
  cases v <;> simp [truthy]

lemma close_flow_exit_reason (r : String) (symbol : String) (oracle : OrderOracle)
    (pos : Position) (oside : Signal) (cside : Side) (lp now : ℚ) (r1 r2 : String)
    (h1 : ¬ r1 = r) (h2 : ¬ r2 = r) :
    ∀ e ∈ stepEvents (close_flow symbol oracle pos oside cside lp now r1 r2),
      isExitWithReason r e = false := by
  intro e he
  unfold close_flow stepEvents at he
  rcases hord : create_market_order (popCall oracle).1 with _ | u <;>
    simp only [hord] at he
  · simp at he
  · simp only [List.mem_cons, List.mem_singleton] at he
    rcases he with rfl | rfl | rfl | rfl | he
    · rfl
    · simp [isExitWithReason, h1]
    · simp [isExitWithReason, mk_trade_record, h2]
    · rfl
    · exact absurd he (List.not_mem_nil e)

/-! ## Claim C3 — position invariant at observable points -/

/-- **C3.** The invariant `side = none ⇔ qty = 0 ⇔ entry/tp/sl/entry-time
all unset` holds after construction, after an engine open (which always
carries a positive quantity), after a close, and after a save/load round
trip of any position satisfying it. -/
theorem position_invariant_lifecycle (p : Position) (symbol : String)
    (side : Side) (entry qty tp sl now : ℚ)
    (hq : 0 < qty) (hp : p.invariant) :
    Position.invariant Position.initial
    ∧ (p.openPos side entry qty tp sl now).invariant
    ∧ p.close.invariant
    ∧ (load_positions_step (save_position (p.to_position_state symbol))).invariant := by
  have hinit : Position.invariant Position.initial := by
    simp [Position.invariant, Position.initial]
  refine ⟨hinit, ?_, ?_, ?_⟩
  · unfold Position.invariant Position.openPos
    simp [ne_of_gt hq]
  · simp [Position.invariant, Position.close]
  · rcases hside : p.side with _ | s
    · have : save_position (p.to_position_state symbol) = none := by
        simp [save_position, Position.to_position_state, hside]
      rw [this]
      exact hinit
    · have hsave : save_position (p.to_position_state symbol)
          = some (p.to_position_state symbol) := by
        simp [save_position, Position.to_position_state, hside]
      rw [hsave]
      have hround : load_positions_step (some (p.to_position_state symbol)) = p := by
        simp only [load_positions_step, load_position, Position.to_position_state,
          Position.from_position_state, hside, Option.isSome_some, if_true]
        rw [← hside]
      rw [hround]
      exact hp

/-- Witness for C3 at a concrete open long position. -/
theorem position_invariant_lifecycle_witness :
    ((0:ℚ) < 2 ∧ (⟨some .long, some 100, 1, some 101, some 99, some 7⟩ : Position).invariant)
    ∧ (Position.invariant Position.initial
      ∧ ((⟨some .long, some 100, 1, some 101, some 99, some 7⟩ : Position).openPos
          .short 50 2 49 51 8).invariant
      ∧ (⟨some .long, some 100, 1, some 101, some 99, some 7⟩ : Position).close.invariant
      ∧ (load_positions_step (save_position
          ((⟨some .long, some 100, 1, some 101, some 99, some 7⟩ : Position).to_position_state
            "BTC/USDT:USDT"))).invariant) :=
  ⟨⟨by norm_num, by decide⟩,
    position_invariant_lifecycle ⟨some .long, some 100, 1, some 101, some 99, some 7⟩
      "BTC/USDT:USDT" .short 50 2 49 51 8 (by norm_num) (by decide)⟩

/-! ## Claim C10 — falsy TP/SL thresholds skip the exit check -/

/-- **C10.** If an open position's take-profit (resp. stop-loss) field is
unset or equal to `0`, `_handle_position` never produces a take-profit
(resp. stop-loss) exit — the threshold is tested for Python truthiness
before the price comparison, so no reduce-only exit fires on that
trigger even when the comparison would hold arithmetically. -/
theorem zero_threshold_skips_exit (symbol : String) (oracle : OrderOracle)
    (pos : Position) (last_price now : ℚ) :
    ((pos.tp = none ∨ pos.tp = some 0) →
      ∀ e ∈ stepEvents (handle_position symbol oracle pos last_price now),
        isExitWithReason "take-profit" e = false)
    ∧ ((pos.sl = none ∨ pos.sl = some 0) →
      ∀ e ∈ stepEvents (handle_position symbol oracle pos last_price now),
        isExitWithReason "stop-loss" e = false) := by
  constructor
  · intro h e he
    have hf : truthy pos.tp = false := (truthy_eq_false _).mpr h
    unfold handle_position at he
    split at he
    · split at he
      · rw [hf] at he
        simp only [Bool.false_and, Bool.false_eq_true, if_false] at he
        split at he
        · exact close_flow_exit_reason _ _ _ _ _ _ _ _ _ _ (by decide) (by decide) e he
        · simp [stepEvents] at he
      · rw [hf] at he
        simp only [Bool.false_and, Bool.false_eq_true, if_false] at he
        split at he
        · exact close_flow_exit_reason _ _ _ _ _ _ _ _ _ _ (by decide) (by decide) e he
        · simp [stepEvents] at he
      · simp [stepEvents] at he
    · simp [stepEvents] at he
  · intro h e he
    have hf : truthy pos.sl = false := (truthy_eq_false _).mpr h
    unfold handle_position at he
    split at he
    · split at he
      · split at he
        · exact close_flow_exit_reason _ _ _ _ _ _ _ _ _ _ (by decide) (by decide) e he
        · rw [hf] at he
          simp only [Bool.false_and, Bool.false_eq_true, if_false] at he
          simp [stepEvents] at he
      · split at he
        · exact close_flow_exit_reason _ _ _ _ _ _ _ _ _ _ (by decide) (by decide) e he
        · rw [hf] at he
          simp only [Bool.false_and, Bool.false_eq_true, if_false] at he
          simp [stepEvents] at he
      · simp [stepEvents] at he
    · simp [stepEvents] at he

/-- Witness for C10: open long with `tp = 0`; the price comparison
`tp ≤ last_price` holds (`0 ≤ 5`) yet no take-profit exit occurs. -/
theorem zero_threshold_skips_exit_witness :
    ((⟨some .long, some 100, 1, some 0, none, some 7⟩ : Position).tp = none
        ∨ (⟨some .long, some 100, 1, some 0, none, some 7⟩ : Position).tp = some 0)
    ∧ (∀ e ∈ stepEvents (handle_position "BTC/USDT:USDT" []
          ⟨some .long, some 100, 1, some 0, none, some 7⟩ 5 9),
        isExitWithReason "take-profit" e = false) :=
  ⟨Or.inr rfl,
    (zero_threshold_skips_exit "BTC/USDT:USDT" []
      ⟨some .long, some 100, 1, some 0, none, some 7⟩ 5 9).1 (Or.inr rfl)⟩

/-! ### Shape lemmas for the engine flows -/

lemma close_flow_ok_shape (symbol : String) (oracle : OrderOracle) (pos : Position)
    (oside : Signal) (cside : Side) (lp now : ℚ) (r1 r2 : String)
    (p : Position) (evs : List Event) (rest : OrderOracle)
    (h : close_flow symbol oracle pos oside cside lp now r1 r2 = .ok (p, evs, rest)) :
    p = pos.close
    ∧ evs = [.orderPlaced symbol oside pos.qty true,
        .notifyClose symbol cside pos.qty lp r1,
        .saveTrade (mk_trade_record symbol cside pos.qty (pos.entry_price.getD 0) lp
          (pos.entry_time.getD 0) now r2),
        .savePosition (pos.close.to_position_state symbol)] := by
  unfold close_flow at h
  rcases hord : create_market_order (popCall oracle).1 with _ | u <;>
    simp only [hord] at h
  · exact absurd h (by simp)
  · simp only [Except.ok.injEq, Prod.mk.injEq] at h
    exact ⟨h.1.symm, h.2.1.symm⟩

lemma close_flow_fail (symbol : String) (att : ℕ → AttemptOutcome) (rest : OrderOracle)
    (pos : Position) (oside : Signal) (cside : Side) (lp now : ℚ) (r1 r2 : String)
    (hfail : create_market_order att = none) :
    close_flow symbol (att :: rest) pos oside cside lp now r1 r2 = .error (pos, []) := by
  unfold close_flow
  simp [popCall, hfail]

lemma entry_flow_ok_shape (cfg : Config) (symbol : String) (oracle : OrderOracle)
    (pos : Position) (oside : Signal) (kside : Side) (lp now : ℚ)
    (amt_dec prc_dec : ℕ) (a b : ℚ)
    (p : Position) (evs : List Event) (rest : OrderOracle)
    (h : entry_flow cfg symbol oracle pos oside kside lp now amt_dec prc_dec a b
        = .ok (p, evs, rest)) :
    evs = []
    ∨ ∃ qty tpr slr, qty = compute_futures_order_qty_usdt cfg.max_notional_usdt lp
        cfg.leverage amt_dec
      ∧ p = pos.openPos kside lp qty tpr slr now
      ∧ evs = [.orderPlaced symbol oside qty false,
          .savePosition (p.to_position_state symbol),
          .notifyOpen symbol kside qty lp tpr slr] := by
  simp only [entry_flow] at h
  split at h
  · rcases hord : create_market_order (popCall oracle).1 with _ | u <;>
      simp only [hord] at h
    · exact absurd h (by simp)
    · simp only [Except.ok.injEq, Prod.mk.injEq] at h
      right
      refine ⟨_, _, _, rfl, h.1.symm, ?_⟩
      rw [← h.1, ← h.2.1]
  · simp only [Except.ok.injEq, Prod.mk.injEq] at h
    exact Or.inl h.2.1.symm

lemma entry_flow_all_fail (cfg : Config) (symbol : String) (att : ℕ → AttemptOutcome)
    (rest : OrderOracle) (pos : Position) (oside : Signal) (kside : Side)
    (lp now : ℚ) (amt_dec prc_dec : ℕ) (a b : ℚ)
    (hfail : create_market_order att = none) :
    entry_flow cfg symbol (att :: rest) pos oside kside lp now amt_dec prc_dec a b
        = .error (pos, [])
    ∨ entry_flow cfg symbol (att :: rest) pos oside kside lp now amt_dec prc_dec a b
        = .ok (pos, [], att :: rest) := by
  simp only [entry_flow]
  split
  · left
    simp [popCall, hfail]
  · right
    rfl

lemma handle_position_ok_shape (symbol : String) (oracle : OrderOracle) (pos : Position)
    (lp now : ℚ) (p : Position) (evs : List Event) (rest : OrderOracle)
    (h : handle_position symbol oracle pos lp now = .ok (p, evs, rest)) :
    evs = []
    ∨ ∃ oside cside r1 r2, p = pos.close
      ∧ evs = [.orderPlaced symbol oside pos.qty true,
          .notifyClose symbol cside pos.qty lp r1,
          .saveTrade (mk_trade_record symbol cside pos.qty (pos.entry_price.getD 0) lp
            (pos.entry_time.getD 0) now r2),
          .savePosition (p.to_position_state symbol)] := by
  unfold handle_position at h
  split at h
  · split at h
    · split at h
      · rcases close_flow_ok_shape _ _ _ _ _ _ _ _ _ _ _ _ h with ⟨hp, hevs⟩
        subst hp
        exact Or.inr ⟨_, _, _, _, rfl, hevs⟩
      · split at h
        · rcases close_flow_ok_shape _ _ _ _ _ _ _ _ _ _ _ _ h with ⟨hp, hevs⟩
          subst hp
          exact Or.inr ⟨_, _, _, _, rfl, hevs⟩
        · simp only [Except.ok.injEq, Prod.mk.injEq] at h
          exact Or.inl h.2.1.symm
    · split at h
      · rcases close_flow_ok_shape _ _ _ _ _ _ _ _ _ _ _ _ h with ⟨hp, hevs⟩
        subst hp
        exact Or.inr ⟨_, _, _, _, rfl, hevs⟩
      · split at h
        · rcases close_flow_ok_shape _ _ _ _ _ _ _ _ _ _ _ _ h with ⟨hp, hevs⟩
          subst hp
          exact Or.inr ⟨_, _, _, _, rfl, hevs⟩
        · simp only [Except.ok.injEq, Prod.mk.injEq] at h
          exact Or.inl h.2.1.symm
    · simp only [Except.ok.injEq, Prod.mk.injEq] at h
      exact Or.inl h.2.1.symm
  · simp only [Except.ok.injEq, Prod.mk.injEq] at h
    exact Or.inl h.2.1.symm

lemma handle_position_all_fail (symbol : String) (att : ℕ → AttemptOutcome)
    (rest : OrderOracle) (pos : Position) (lp now : ℚ)
    (hfail : create_market_order att = none) :
    handle_position symbol (att :: rest) pos lp now = .ok (pos, [], att :: rest)
    ∨ handle_position symbol (att :: rest) pos lp now = .error (pos, []) := by
  unfold handle_position
  split
  all_goals try exact Or.inl rfl
  all_goals split
  all_goals try exact Or.inl rfl
  all_goals split_ifs <;>
    first
      | exact Or.inl rfl
      | exact Or.inr (close_flow_fail _ _ _ _ _ _ _ _ _ _ hfail)

lemma maybe_enter_all_fail (cfg : Config) (symbol : String) (att : ℕ → AttemptOutcome)
    (rest : OrderOracle) (pos : Position) (sig : Option Signal) (lp now : ℚ)
    (amt_dec prc_dec : ℕ) (hfail : create_market_order att = none) :
    maybe_enter cfg symbol (att :: rest) pos sig lp now amt_dec prc_dec
        = .ok (pos, [], att :: rest)
    ∨ maybe_enter cfg symbol (att :: rest) pos sig lp now amt_dec prc_dec
        = .error (pos, []) := by
  unfold maybe_enter
  rcases sig with _ | s
  · exact Or.inl rfl
  · cases s <;> split_ifs <;>
      first
        | exact Or.inl rfl
        | exact Or.inr (close_flow_fail _ _ _ _ _ _ _ _ _ _ hfail)
        | exact Or.symm (entry_flow_all_fail _ _ _ _ _ _ _ _ _ _ _ _ _ hfail)

/-! ## Claim C1 — no same-cycle re-entry after a signal-change close -/

/-- **C1 is false on the code**: with an OPEN long, a fresh `sell`
signal, a succeeding exchange and a Risk-Sizer quantity strictly
positive, the cycle closes the long but opens nothing: the final
position is flat and no non-reduce-only (entry) order is placed in the
same cycle — `_maybe_enter` only evaluates entry when the position was
already flat when the call started. -/
theorem same_cycle_reentry_cex :
    0 < compute_futures_order_qty_usdt 50 100 5 3
    ∧ (symbol_cycle ⟨50, 5, 3/1000, 2/1000⟩ "BTC/USDT:USDT" []
        ⟨some .long, some 100, 1, some 102, some 99, some 1000⟩
        (some .sell) 100 2000 3 2).1.is_open = false
    ∧ (∀ e ∈ (symbol_cycle ⟨50, 5, 3/1000, 2/1000⟩ "BTC/USDT:USDT" []
        ⟨some .long, some 100, 1, some 102, some 99, some 1000⟩
        (some .sell) 100 2000 3 2).2, isEntryOrder e = false) := by
  refine ⟨?_, rfl, by decide⟩
  norm_num [compute_futures_order_qty_usdt, round_step]

/-- **C1 (amended).** When OPEN and the newly computed signal is opposite
the held side, the engine closes via a reduce-only order (notify reason
`señal contraria`, trade-record reason `signal-change`) and persists
FLAT — and that is all: entry is *not* evaluated again in the same poll
cycle, so the earliest a new position can open is a later cycle. -/
theorem signal_change_close_no_reentry (cfg : Config) (symbol : String)
    (att : ℕ → AttemptOutcome) (rest : OrderOracle) (pos : Position)
    (last_price now : ℚ) (amt_dec prc_dec : ℕ)
    (hok : create_market_order att = some ())
    (hopen : pos.is_open = true) :
    (pos.side = some .long →
      maybe_enter cfg symbol (att :: rest) pos (some .sell) last_price now amt_dec prc_dec
        = .ok (pos.close,
            [.orderPlaced symbol .sell pos.qty true,
             .notifyClose symbol .long pos.qty last_price "señal contraria",
             .saveTrade (mk_trade_record symbol .long pos.qty (pos.entry_price.getD 0)
               last_price (pos.entry_time.getD 0) now "signal-change"),
             .savePosition (pos.close.to_position_state symbol)], rest))
    ∧ (pos.side = some .short →
      maybe_enter cfg symbol (att :: rest) pos (some .buy) last_price now amt_dec prc_dec
        = .ok (pos.close,
            [.orderPlaced symbol .buy pos.qty true,
             .notifyClose symbol .short pos.qty last_price "señal contraria",
             .saveTrade (mk_trade_record symbol .short pos.qty (pos.entry_price.getD 0)
               last_price (pos.entry_time.getD 0) now "signal-change"),
             .savePosition (pos.close.to_position_state symbol)], rest)) := by
  constructor <;> intro hside <;>
    simp [maybe_enter, hopen, hside, close_flow, popCall, hok]

/-- Witness for the amended C1 at the counterexample input. -/
theorem signal_change_close_no_reentry_witness :
    (create_market_order (fun _ => AttemptOutcome.ok) = some ()
      ∧ (⟨some .long, some 100, 1, some (1003/10), some (499/5), some 1000⟩
          : Position).is_open = true
      ∧ (⟨some .long, some 100, 1, some (1003/10), some (499/5), some 1000⟩
          : Position).side = some .long)
    ∧ maybe_enter ⟨50, 5, 3/1000, 2/1000⟩ "BTC/USDT:USDT"
        [fun _ => AttemptOutcome.ok]
        ⟨some .long, some 100, 1, some (1003/10), some (499/5), some 1000⟩
        (some .sell) 100 2000 3 2
      = .ok ((⟨some .long, some 100, 1, some (1003/10), some (499/5), some 1000⟩
            : Position).close,
          [.orderPlaced "BTC/USDT:USDT" .sell 1 true,
           .notifyClose "BTC/USDT:USDT" .long 1 100 "señal contraria",
           .saveTrade (mk_trade_record "BTC/USDT:USDT" .long 1 100 100 1000 2000
             "signal-change"),
           .savePosition ((⟨some .long, some 100, 1, some (1003/10), some (499/5),
             some 1000⟩ : Position).close.to_position_state "BTC/USDT:USDT")], []) :=
  ⟨⟨rfl, rfl, rfl⟩,
    (signal_change_close_no_reentry ⟨50, 5, 3/1000, 2/1000⟩ "BTC/USDT:USDT"
      (fun _ => AttemptOutcome.ok) []
      ⟨some .long, some 100, 1, some (1003/10), some (499/5), some 1000⟩
      100 2000 3 2 rfl rfl).1 rfl⟩

/-! ## Claim C2 — persistence versus notification order -/

/-- **C2 is false on the code**: at a concrete take-profit close the
close notification is emitted strictly before either persistence event
(trade record, position row) — the code notifies first and persists
afterwards on every close path. -/
theorem close_notify_before_persist_cex :
    stepEvents (handle_position "BTC/USDT:USDT" []
        ⟨some .long, some 100, 1, some 101, some 99, some 10⟩ 101 2000)
      = [.orderPlaced "BTC/USDT:USDT" .sell 1 true,
         .notifyClose "BTC/USDT:USDT" .long 1 101 "take-profit",
         .saveTrade (mk_trade_record "BTC/USDT:USDT" .long 1 100 101 10 2000
           "take-profit"),
         .savePosition ⟨"BTC/USDT:USDT", none, none, 0, none, none, none⟩]
    ∧ List.findIdx isCloseNotification (stepEvents (handle_position "BTC/USDT:USDT" []
        ⟨some .long, some 100, 1, some 101, some 99, some 10⟩ 101 2000))
      < List.findIdx isPersistEvent (stepEvents (handle_position "BTC/USDT:USDT" []
        ⟨some .long, some 100, 1, some 101, some 99, some 10⟩ 101 2000)) := by
  exact ⟨rfl, by decide⟩

/-- **C2 (amended).** For every transition the new position state is
persisted within the same cycle, before control returns to the
scheduler; the notification order depends on the transition: an open
notification is sent after persistence, while a close notification is
sent before the trade record and the FLAT row are persisted.  The three
conjuncts exhibit the exact event traces. -/
theorem persistence_ordering (cfg : Config) (symbol : String) (oracle : OrderOracle)
    (pos : Position) (sig : Option Signal) (lp now : ℚ) (amt_dec prc_dec : ℕ) :
    (∀ p evs rest, handle_position symbol oracle pos lp now = .ok (p, evs, rest) →
      evs = []
      ∨ ∃ oside cside r1 r2,
          evs = [.orderPlaced symbol oside pos.qty true,
            .notifyClose symbol cside pos.qty lp r1,
            .saveTrade (mk_trade_record symbol cside pos.qty (pos.entry_price.getD 0) lp
              (pos.entry_time.getD 0) now r2),
            .savePosition (p.to_position_state symbol)])
    ∧ (pos.is_open = true →
      ∀ p evs rest, maybe_enter cfg symbol oracle pos sig lp now amt_dec prc_dec
          = .ok (p, evs, rest) →
        evs = []
        ∨ ∃ oside cside tr,
            evs = [.orderPlaced symbol oside pos.qty true,
              .notifyClose symbol cside pos.qty lp "señal contraria",
              .saveTrade tr,
              .savePosition (p.to_position_state symbol)])
    ∧ (pos.is_open = false →
      ∀ p evs rest, maybe_enter cfg symbol oracle pos sig lp now amt_dec prc_dec
          = .ok (p, evs, rest) →
        evs = []
        ∨ ∃ oside kside qty tpr slr,
            evs = [.orderPlaced symbol oside qty false,
              .savePosition (p.to_position_state symbol),
              .notifyOpen symbol kside qty lp tpr slr]) := by
  refine ⟨?_, ?_, ?_⟩
  · intro p evs rest h
    rcases handle_position_ok_shape _ _ _ _ _ _ _ _ h with h0 | ⟨o, c, r1, r2, hp, hevs⟩
    · exact Or.inl h0
    · subst hp
      exact Or.inr ⟨o, c, r1, r2, hevs⟩
  · intro hopen p evs rest h
    rcases sig with _ | s
    · simp only [maybe_enter, Except.ok.injEq, Prod.mk.injEq] at h
      exact Or.inl h.2.1.symm
    · cases s
      · simp only [maybe_enter] at h
        split at h
        · split at h
          · rcases close_flow_ok_shape _ _ _ _ _ _ _ _ _ _ _ _ h with ⟨hp, hevs⟩
            subst hp
            exact Or.inr ⟨_, _, _, hevs⟩
          · simp only [Except.ok.injEq, Prod.mk.injEq] at h
            exact Or.inl h.2.1.symm
        · exact absurd hopen (by assumption)
      · simp only [maybe_enter] at h
        split at h
        · split at h
          · rcases close_flow_ok_shape _ _ _ _ _ _ _ _ _ _ _ _ h with ⟨hp, hevs⟩
            subst hp
            exact Or.inr ⟨_, _, _, hevs⟩
          · simp only [Except.ok.injEq, Prod.mk.injEq] at h
            exact Or.inl h.2.1.symm
        · exact absurd hopen (by assumption)
  · intro hflat p evs rest h
    rcases sig with _ | s
    · simp only [maybe_enter, Except.ok.injEq, Prod.mk.injEq] at h
      exact Or.inl h.2.1.symm
    · cases s
      · simp only [maybe_enter] at h
        split at h
        · rename_i hcond
          rw [hflat] at hcond
          exact absurd hcond (by decide)
        · rcases entry_flow_ok_shape _ _ _ _ _ _ _ _ _ _ _ _ _ _ _ h with h0 |
            ⟨qty, tpr, slr, _, hp, hevs⟩
          · exact Or.inl h0
          · exact Or.inr ⟨_, _, qty, tpr, slr, hevs⟩
      · simp only [maybe_enter] at h
        split at h
        · rename_i hcond
          rw [hflat] at hcond
          exact absurd hcond (by decide)
        · rcases entry_flow_ok_shape _ _ _ _ _ _ _ _ _ _ _ _ _ _ _ h with h0 |
            ⟨qty, tpr, slr, _, hp, hevs⟩
          · exact Or.inl h0
          · exact Or.inr ⟨_, _, qty, tpr, slr, hevs⟩

/-- Witness for the amended C2: take-profit close at a concrete input. -/
theorem persistence_ordering_witness :
    (handle_position "BTC/USDT:USDT" []
        ⟨some .long, some 100, 1, some 101, some 99, some 10⟩ 101 2000
      = .ok ((⟨some .long, some 100, 1, some 101, some 99, some 10⟩ : Position).close,
          [.orderPlaced "BTC/USDT:USDT" .sell 1 true,
           .notifyClose "BTC/USDT:USDT" .long 1 101 "take-profit",
           .saveTrade (mk_trade_record "BTC/USDT:USDT" .long 1 100 101 10 2000
             "take-profit"),
           .savePosition ((⟨some .long, some 100, 1, some 101, some 99, some 10⟩
             : Position).close.to_position_state "BTC/USDT:USDT")], []))
    ∧ (([Event.orderPlaced "BTC/USDT:USDT" Signal.sell 1 true,
         Event.notifyClose "BTC/USDT:USDT" Side.long 1 101 "take-profit",
         Event.saveTrade (mk_trade_record "BTC/USDT:USDT" Side.long 1 100 101 10 2000
           "take-profit"),
         Event.savePosition ((⟨some .long, some 100, 1, some 101, some 99, some 10⟩
           : Position).close.to_position_state "BTC/USDT:USDT")] : List Event) = []
      ∨ ∃ (oside : Signal) (cside : Side) (r1 r2 : String),
          ([Event.orderPlaced "BTC/USDT:USDT" Signal.sell 1 true,
           Event.notifyClose "BTC/USDT:USDT" Side.long 1 101 "take-profit",
           Event.saveTrade (mk_trade_record "BTC/USDT:USDT" Side.long 1 100 101 10 2000
             "take-profit"),
           Event.savePosition ((⟨some .long, some 100, 1, some 101, some 99, some 10⟩
             : Position).close.to_position_state "BTC/USDT:USDT")] : List Event)
          = [Event.orderPlaced "BTC/USDT:USDT" oside 1 true,
             Event.notifyClose "BTC/USDT:USDT" cside 1 101 r1,
             Event.saveTrade (mk_trade_record "BTC/USDT:USDT" cside 1 100 101 10 2000 r2),
             Event.savePosition (((⟨some .long, some 100, 1, some 101, some 99, some 10⟩
               : Position).close).to_position_state "BTC/USDT:USDT")]) := by
  refine ⟨rfl, ?_⟩
  exact (persistence_ordering ⟨50, 5, 3/1000, 2/1000⟩ "BTC/USDT:USDT" []
    ⟨some .long, some 100, 1, some 101, some 99, some 10⟩ none 101 2000 3 2).1
    _ _ _ rfl

/-! ## Claim C7 — terminal order failure aborts the cycle cleanly -/

/-- **C7.** When every attempt of the order call fails, the call ends
terminally (`none` after 3 attempts); the symbol's cycle then ends with
the position unchanged and no persistence or trade/position
notification.  The error notification is actually sent: whenever the
raised order error escapes a flow, the loop's catch appends exactly
`notifyError`, and at any state that reaches an order call — an open
long at its take-profit, or a flat entry with positive sizing — the
cycle's event trace is exactly `[notifyError]`.  A pass over many
symbols decomposes per symbol, so the other symbols' cycles are exactly
what they would have been on their own. -/
theorem order_failure_aborts_cycle (cfg : Config) (symbol : String)
    (att : ℕ → AttemptOutcome) (rest : OrderOracle) (pos : Position)
    (sig : Option Signal) (lp now : ℚ) (amt_dec prc_dec : ℕ)
    (hfail : att 0 ≠ .ok ∧ att 1 ≠ .ok ∧ att 2 ≠ .ok) :
    create_market_order att = none
    ∧ (symbol_cycle cfg symbol (att :: rest) pos sig lp now amt_dec prc_dec).1 = pos
    ∧ ((symbol_cycle cfg symbol (att :: rest) pos sig lp now amt_dec prc_dec).2 = []
      ∨ (symbol_cycle cfg symbol (att :: rest) pos sig lp now amt_dec prc_dec).2
        = [.notifyError symbol])
    ∧ (∀ e ∈ (symbol_cycle cfg symbol (att :: rest) pos sig lp now amt_dec prc_dec).2,
        isPersistEvent e = false ∧ isOpenNotification e = false
          ∧ isCloseNotification e = false)
    ∧ (∀ p evs, handle_position symbol (att :: rest) pos lp now = .error (p, evs) →
        symbol_cycle cfg symbol (att :: rest) pos sig lp now amt_dec prc_dec
          = (p, evs ++ [.notifyError symbol]))
    ∧ (pos.is_open = true → pos.side = some Side.long →
        (truthy pos.tp && decide (pos.tp.getD 0 ≤ lp)) = true →
        symbol_cycle cfg symbol (att :: rest) pos sig lp now amt_dec prc_dec
          = (pos, [.notifyError symbol]))
    ∧ (pos.is_open = false → sig = some Signal.buy →
        0 < compute_futures_order_qty_usdt cfg.max_notional_usdt lp cfg.leverage amt_dec →
        symbol_cycle cfg symbol (att :: rest) pos sig lp now amt_dec prc_dec
          = (pos, [.notifyError symbol]))
    ∧ (∀ (xs zs : List SymbolInput) (inp : SymbolInput),
        run_pass cfg (xs ++ inp :: zs)
          = run_pass cfg xs
            ++ symbol_cycle cfg inp.symbol inp.oracle inp.pos inp.sig inp.last_price
                inp.now inp.amt_dec inp.prc_dec
            :: run_pass cfg zs) := by
  have hnone : create_market_order att = none := by
    unfold create_market_order
    simp [hfail.1, hfail.2.1, hfail.2.2]
  have hcatch : ∀ p evs, handle_position symbol (att :: rest) pos lp now = .error (p, evs) →
      symbol_cycle cfg symbol (att :: rest) pos sig lp now amt_dec prc_dec
        = (p, evs ++ [.notifyError symbol]) := by
    intro p evs h
    unfold symbol_cycle
    rw [h]
  have hcycle : (symbol_cycle cfg symbol (att :: rest) pos sig lp now amt_dec prc_dec).1 = pos
      ∧ ((symbol_cycle cfg symbol (att :: rest) pos sig lp now amt_dec prc_dec).2 = []
        ∨ (symbol_cycle cfg symbol (att :: rest) pos sig lp now amt_dec prc_dec).2
          = [.notifyError symbol]) := by
    unfold symbol_cycle
    rcases handle_position_all_fail symbol att rest pos lp now hnone with h | h
    · rw [h]
      rcases maybe_enter_all_fail cfg symbol att rest pos sig lp now amt_dec prc_dec hnone
        with h2 | h2 <;> simp [h2]
    · rw [h]
      simp
  refine ⟨hnone, hcycle.1, hcycle.2, ?_, hcatch, ?_, ?_, ?_⟩
  · intro e he
    rcases hcycle.2 with h | h <;> rw [h] at he
    · exact absurd he (List.not_mem_nil e)
    · simp only [List.mem_singleton] at he
      subst he
      exact ⟨rfl, rfl, rfl⟩
  · intro hopen hside htp
    have hh : handle_position symbol (att :: rest) pos lp now = .error (pos, []) := by
      unfold handle_position
      rw [if_pos hopen]
      simp only [hside]
      rw [if_pos htp]
      exact close_flow_fail _ _ _ _ _ _ _ _ _ _ hnone
    simpa using hcatch pos [] hh
  · intro hflat hsig hqty
    subst hsig
    have hh : handle_position symbol (att :: rest) pos lp now
        = .ok (pos, [], att :: rest) := by
      unfold handle_position
      rw [if_neg (by simp [hflat])]
    have hm : maybe_enter cfg symbol (att :: rest) pos (some Signal.buy) lp now
        amt_dec prc_dec = .error (pos, []) := by
      simp only [maybe_enter]
      rw [if_neg (by simp [hflat])]
      simp only [entry_flow]
      rw [if_pos hqty]
      simp [popCall, hnone]
    unfold symbol_cycle
    rw [hh]
    simp [hm]
  · intro xs zs inp
    simp [run_pass]

/-- Witness for C7: open long at its TP, every order attempt errors —
the trigger hypotheses are discharged at the concrete input, so the
cycle's trace is exactly `[notifyError]`: the terminal-error
notification is actually sent. -/
theorem order_failure_aborts_cycle_witness :
    ((fun _ : ℕ => AttemptOutcome.otherErr) 0 ≠ AttemptOutcome.ok
      ∧ (fun _ : ℕ => AttemptOutcome.otherErr) 1 ≠ AttemptOutcome.ok
      ∧ (fun _ : ℕ => AttemptOutcome.otherErr) 2 ≠ AttemptOutcome.ok)
    ∧ (create_market_order (fun _ => AttemptOutcome.otherErr) = none
    ∧ (symbol_cycle ⟨50, 5, 3/1000, 2/1000⟩ "BTC/USDT:USDT"
        [fun _ => AttemptOutcome.otherErr]
        ⟨some .long, some 100, 1, some 101, some 99, some 10⟩ none 101 2000 3 2).1
      = ⟨some .long, some 100, 1, some 101, some 99, some 10⟩
    ∧ ((symbol_cycle ⟨50, 5, 3/1000, 2/1000⟩ "BTC/USDT:USDT"
        [fun _ => AttemptOutcome.otherErr]
        ⟨some .long, some 100, 1, some 101, some 99, some 10⟩ none 101 2000 3 2).2 = []
      ∨ (symbol_cycle ⟨50, 5, 3/1000, 2/1000⟩ "BTC/USDT:USDT"
        [fun _ => AttemptOutcome.otherErr]
        ⟨some .long, some 100, 1, some 101, some 99, some 10⟩ none 101 2000 3 2).2
        = [.notifyError "BTC/USDT:USDT"])
    ∧ (∀ e ∈ (symbol_cycle ⟨50, 5, 3/1000, 2/1000⟩ "BTC/USDT:USDT"
        [fun _ => AttemptOutcome.otherErr]
        ⟨some .long, some 100, 1, some 101, some 99, some 10⟩ none 101 2000 3 2).2,
        isPersistEvent e = false ∧ isOpenNotification e = false
          ∧ isCloseNotification e = false)
    ∧ (∀ p evs, handle_position "BTC/USDT:USDT" [fun _ => AttemptOutcome.otherErr]
          ⟨some .long, some 100, 1, some 101, some 99, some 10⟩ 101 2000
          = .error (p, evs) →
        symbol_cycle ⟨50, 5, 3/1000, 2/1000⟩ "BTC/USDT:USDT"
          [fun _ => AttemptOutcome.otherErr]
          ⟨some .long, some 100, 1, some 101, some 99, some 10⟩ none 101 2000 3 2
          = (p, evs ++ [.notifyError "BTC/USDT:USDT"]))
    ∧ ((⟨some .long, some 100, 1, some 101, some 99, some 10⟩ : Position).is_open = true →
        (⟨some .long, some 100, 1, some 101, some 99, some 10⟩ : Position).side
          = some Side.long →
        (truthy (⟨some .long, some 100, 1, some 101, some 99, some 10⟩ : Position).tp
          && decide ((⟨some .long, some 100, 1, some 101, some 99, some 10⟩
            : Position).tp.getD 0 ≤ 101)) = true →
        symbol_cycle ⟨50, 5, 3/1000, 2/1000⟩ "BTC/USDT:USDT"
          [fun _ => AttemptOutcome.otherErr]
          ⟨some .long, some 100, 1, some 101, some 99, some 10⟩ none 101 2000 3 2
          = (⟨some .long, some 100, 1, some 101, some 99, some 10⟩,
             [.notifyError "BTC/USDT:USDT"]))
    ∧ ((⟨some .long, some 100, 1, some 101, some 99, some 10⟩ : Position).is_open
          = false →
        (none : Option Signal) = some Signal.buy →
        0 < compute_futures_order_qty_usdt
            (⟨50, 5, 3/1000, 2/1000⟩ : Config).max_notional_usdt 101
            (⟨50, 5, 3/1000, 2/1000⟩ : Config).leverage 3 →
        symbol_cycle ⟨50, 5, 3/1000, 2/1000⟩ "BTC/USDT:USDT"
          [fun _ => AttemptOutcome.otherErr]
          ⟨some .long, some 100, 1, some 101, some 99, some 10⟩ none 101 2000 3 2
          = (⟨some .long, some 100, 1, some 101, some 99, some 10⟩,
             [.notifyError "BTC/USDT:USDT"]))
    ∧ (∀ (xs zs : List SymbolInput) (inp : SymbolInput),
        run_pass ⟨50, 5, 3/1000, 2/1000⟩ (xs ++ inp :: zs)
          = run_pass ⟨50, 5, 3/1000, 2/1000⟩ xs
            ++ symbol_cycle ⟨50, 5, 3/1000, 2/1000⟩ inp.symbol inp.oracle inp.pos inp.sig
                inp.last_price inp.now inp.amt_dec inp.prc_dec
            :: run_pass ⟨50, 5, 3/1000, 2/1000⟩ zs))
    ∧ symbol_cycle ⟨50, 5, 3/1000, 2/1000⟩ "BTC/USDT:USDT"
        [fun _ => AttemptOutcome.otherErr]
        ⟨some .long, some 100, 1, some 101, some 99, some 10⟩ none 101 2000 3 2
      = (⟨some .long, some 100, 1, some 101, some 99, some 10⟩,
         [.notifyError "BTC/USDT:USDT"]) := by
  have h := order_failure_aborts_cycle ⟨50, 5, 3/1000, 2/1000⟩ "BTC/USDT:USDT"
    (fun _ => AttemptOutcome.otherErr) []
    ⟨some .long, some 100, 1, some 101, some 99, some 10⟩ none 101 2000 3 2
    ⟨by decide, by decide, by decide⟩
  exact ⟨⟨by decide, by decide, by decide⟩, h,
    h.2.2.2.2.2.1 (by decide) rfl (by decide)⟩

/-! ## OHLCV cache (`src/bot/database.py`, `src/bot/exchange.py`) -/

/-- One OHLCV candle as delivered by the exchange API
(`[timestamp, open, high, low, close, volume]`). -/
structure Candle where
  timestamp : ℚ
  open_price : ℚ
  high_price : ℚ
  low_price : ℚ
  close_price : ℚ
  volume : ℚ
  deriving DecidableEq, Repr

/-- One row of the `ohlcv_cache` table (primary key
`(symbol, timeframe, timestamp)` plus the write time `cached_at`). -/
structure CacheRow where
  symbol : String
  timeframe : String
  timestamp : ℚ
  open_price : ℚ
  high_price : ℚ
  low_price : ℚ
  close_price : ℚ
  volume : ℚ
  cached_at : ℚ
  deriving DecidableEq, Repr

def CacheRow.toCandle (r : CacheRow) : Candle :=
  ⟨r.timestamp, r.open_price, r.high_price, r.low_price, r.close_price, r.volume⟩

/-- Does a row belong to the (symbol, timeframe) bucket? -/
def inBucket (symbol timeframe : String) (r : CacheRow) : Bool :=
  decide (r.symbol = symbol ∧ r.timeframe = timeframe)

/-- Insertion sort of cache rows by `timestamp` descending — the model
of SQL `ORDER BY timestamp DESC`. -/
def insertRowDesc (x : CacheRow) : List CacheRow → List CacheRow
  | [] => [x]
  | y :: ys =>
      if y.timestamp ≤ x.timestamp then x :: y :: ys else y :: insertRowDesc x ys

def sortRowsDesc : List CacheRow → List CacheRow
  | [] => []
  | x :: xs => insertRowDesc x (sortRowsDesc xs)

/-- The timestamps the DELETE of `Database.cache_ohlcv` keeps: the 1000
most recent timestamps of the (symbol, timeframe) bucket. -/
def keepTimestamps (symbol timeframe : String) (table : List CacheRow) : List ℚ :=
  ((sortRowsDesc (table.filter (inBucket symbol timeframe))).take 1000).map
    (fun r => r.timestamp)

/-- The DELETE of `Database.cache_ohlcv`: bucket rows whose timestamp is
not among the 1000 most recent are removed; other buckets are kept. -/
def pruneBucket (symbol timeframe : String) (table : List CacheRow) : List CacheRow :=
  table.filter (fun r =>
    !(inBucket symbol timeframe r)
      || decide (r.timestamp ∈ keepTimestamps symbol timeframe table))

/-- `INSERT OR REPLACE` of one candle: a row with the same primary key
is replaced, `cached_at` is stamped with the write time. -/
def upsertCandle (symbol timeframe : String) (now : ℚ) (table : List CacheRow)
    (cd : Candle) : List CacheRow :=
  table.filter (fun r =>
    !(decide (r.symbol = symbol ∧ r.timeframe = timeframe ∧ r.timestamp = cd.timestamp)))
  ++ [⟨symbol, timeframe, cd.timestamp, cd.open_price, cd.high_price, cd.low_price,
      cd.close_price, cd.volume, now⟩]

/-- `Database.cache_ohlcv`: first prune the bucket to the 1000 most
recent timestamps, then upsert the new batch. -/
def cache_ohlcv (symbol timeframe : String) (data : List Candle) (now : ℚ)
    (table : List CacheRow) : List CacheRow :=
  data.foldl (upsertCandle symbol timeframe now) (pruneBucket symbol timeframe table)

/-- `Database.get_cached_ohlcv`: rows of the bucket cached after
`now − max_age_seconds`, newest `limit` of them; served (oldest first)
only when at least `min(limit, 2)` such rows exist. -/
def get_cached_ohlcv (symbol timeframe : String) (limit : ℕ) (max_age_seconds now : ℚ)
    (table : List CacheRow) : Option (List CacheRow) :=
  let cutoff_time := now - max_age_seconds
  let fresh := table.filter (fun r =>
    inBucket symbol timeframe r && decide (cutoff_time < r.cached_at))
  let rows := (sortRowsDesc fresh).take limit
  if min limit 2 ≤ rows.length then some rows.reverse else none

/-- `ExchangeClient._get_min_fetch_interval` (seconds, by timeframe). -/
def minFetchInterval (timeframe : String) : ℚ :=
  if timeframe = "1m" then 30
  else if timeframe = "3m" then 60
  else if timeframe = "5m" then 120
  else if timeframe = "15m" then 300
  else if timeframe = "30m" then 600
  else if timeframe = "1h" then 1200
  else 60

/-- In-memory throttle state `_last_ohlcv_fetch` plus the cache table. -/
structure FetchState where
  last_ohlcv_fetch : List ((String × String) × ℚ)
  table : List CacheRow

/-- `self._last_ohlcv_fetch.get(cache_key, 0)`. -/
def lookupLastFetch (m : List ((String × String) × ℚ)) (k : String × String) : ℚ :=
  match m.find? (fun p => p.1 == k) with
  | some p => p.2
  | none => 0

inductive FetchSource
  | cache
  | api
  deriving DecidableEq, Repr

/-- The live-fetch path of `fetch_ohlcv` (successful attempt): return
the API data, write it through the cache, stamp the fetch time. -/
def live_fetch (symbol timeframe : String) (now : ℚ) (api_data : List Candle)
    (st : FetchState) : List Candle × FetchSource × FetchState :=
  (api_data, .api,
    ⟨((symbol, timeframe), now)
        :: st.last_ohlcv_fetch.filter (fun p => !(p.1 == (symbol, timeframe))),
      cache_ohlcv symbol timeframe api_data now st.table⟩)

/-- `ExchangeClient.fetch_ohlcv` (database present, API attempt
succeeds): inside the per-(symbol, timeframe) minimum re-fetch interval
a cached read is attempted first with freshness window twice that
interval (an empty cached list is falsy in Python and falls through);
otherwise — or when the cache cannot serve — fetch live. -/
def fetch_ohlcv (symbol timeframe : String) (limit : ℕ) (now : ℚ)
    (api_data : List Candle) (st : FetchState) :
    List Candle × FetchSource × FetchState :=
  let min_interval := minFetchInterval timeframe
  let last_fetch := lookupLastFetch st.last_ohlcv_fetch (symbol, timeframe)
  if now - last_fetch < min_interval then
    match get_cached_ohlcv symbol timeframe limit (min_interval * 2) now st.table with
    | some rows =>
        if rows.length = 0 then live_fetch symbol timeframe now api_data st
        else (rows.map CacheRow.toCandle, .cache, st)
    | none => live_fetch symbol timeframe now api_data st
  else live_fetch symbol timeframe now api_data st

/-! ### Sort and prune lemmas -/

lemma mem_insertRowDesc (x a : CacheRow) (l : List CacheRow) :
    a ∈ insertRowDesc x l ↔ a = x ∨ a ∈ l := by
  induction l with
  | nil => simp [insertRowDesc]
  | cons y ys ih =>
      unfold insertRowDesc
      split
      · simp
      · simp [ih, or_left_comm]

lemma length_insertRowDesc (x : CacheRow) (l : List CacheRow) :
    (insertRowDesc x l).length = l.length + 1 := by
  induction l with
  | nil => rfl
  | cons y ys ih =>
      unfold insertRowDesc
      split
      · rfl
      · simp [ih]

lemma length_sortRowsDesc (l : List CacheRow) :
    (sortRowsDesc l).length = l.length := by
  induction l with
  | nil => rfl
  | cons x xs ih =>
      unfold sortRowsDesc
      rw [length_insertRowDesc, ih]
      rfl

lemma mem_sortRowsDesc (a : CacheRow) (l : List CacheRow) :
    a ∈ sortRowsDesc l ↔ a ∈ l := by
  induction l with
  | nil => simp [sortRowsDesc]
  | cons x xs ih =>
      unfold sortRowsDesc
      rw [mem_insertRowDesc, ih]
      simp

lemma keepTimestamps_length_le (symbol timeframe : String) (table : List CacheRow) :
    (keepTimestamps symbol timeframe table).length ≤ 1000 := by
  unfold keepTimestamps
  rw [List.length_map]
  exact le_trans (List.length_take_le _ _) (le_refl _)

/-- With a bucket of at most 1000 rows the DELETE removes nothing. -/
lemma pruneBucket_eq_self (symbol timeframe : String) (table : List CacheRow)
    (hlen : (table.filter (inBucket symbol timeframe)).length ≤ 1000) :
    pruneBucket symbol timeframe table = table := by
  unfold pruneBucket
  apply List.filter_eq_self.mpr
  intro r hr
  by_cases hb : inBucket symbol timeframe r = true
  · have hmem : r ∈ table.filter (inBucket symbol timeframe) :=
      List.mem_filter.mpr ⟨hr, hb⟩
    have hsorted : r ∈ sortRowsDesc (table.filter (inBucket symbol timeframe)) :=
      (mem_sortRowsDesc _ _).mpr hmem
    have htake : (sortRowsDesc (table.filter (inBucket symbol timeframe))).take 1000
        = sortRowsDesc (table.filter (inBucket symbol timeframe)) := by
      apply List.take_of_length_le
      rw [length_sortRowsDesc]
      exact hlen
    have hkeep : r.timestamp ∈ keepTimestamps symbol timeframe table := by
      unfold keepTimestamps
      rw [htake]
      exact List.mem_map_of_mem _ hsorted
    simp [hb, hkeep]
  · simp [hb]

/-! ## Claim C9 — cache bound after a write -/

/-- A full bucket: 1000 rows with timestamps `0, …, 999`. -/
def rowAt (i : ℕ) : CacheRow :=
  ⟨"BTC/USDT:USDT", "1m", (i : ℚ), 1, 1, 1, 1, 1, 500⟩

def fullTable : List CacheRow := (List.range 1000).map rowAt

lemma cache_ohlcv_singleton (symbol timeframe : String) (cd : Candle) (now : ℚ)
    (table : List CacheRow) :
    cache_ohlcv symbol timeframe [cd] now table
      = upsertCandle symbol timeframe now (pruneBucket symbol timeframe table) cd :=
  rfl

/-- **C9 is false on the code**: writing one new candle into a bucket
already holding 1000 rows leaves 1001 rows — the DELETE prunes to the
1000 most recent timestamps *before* the INSERT, so right after the
write completes the bucket exceeds 1000. -/
theorem cache_prune_before_insert_cex :
    ((cache_ohlcv "BTC/USDT:USDT" "1m" [⟨1000, 1, 1, 1, 1, 1⟩] 600 fullTable).filter
        (inBucket "BTC/USDT:USDT" "1m")).length = 1001
    ∧ ¬ ((cache_ohlcv "BTC/USDT:USDT" "1m" [⟨1000, 1, 1, 1, 1, 1⟩] 600 fullTable).filter
        (inBucket "BTC/USDT:USDT" "1m")).length ≤ 1000 := by
  have hbucket : fullTable.filter (inBucket "BTC/USDT:USDT" "1m") = fullTable := by
    apply List.filter_eq_self.mpr
    intro r hr
    rcases List.mem_map.mp hr with ⟨i, hi, rfl⟩
    simp [inBucket, rowAt]
  have hfl : fullTable.length = 1000 := by
    simp [fullTable]
  have hprune : pruneBucket "BTC/USDT:USDT" "1m" fullTable = fullTable := by
    apply pruneBucket_eq_self
    rw [hbucket, hfl]
  have hf2 : fullTable.filter (fun r =>
      !decide (r.symbol = "BTC/USDT:USDT" ∧ r.timeframe = "1m"
        ∧ r.timestamp = (⟨1000, 1, 1, 1, 1, 1⟩ : Candle).timestamp)) = fullTable := by
    apply List.filter_eq_self.mpr
    intro r hr
    rcases List.mem_map.mp hr with ⟨i, hi, rfl⟩
    have hne : ((i : ℚ) ≠ 1000) := by
      have hi2 : i < 1000 := List.mem_range.mp hi
      have : (i : ℚ) < 1000 := by exact_mod_cast hi2
      exact ne_of_lt this
    simp [rowAt, hne]
  have hupsert : cache_ohlcv "BTC/USDT:USDT" "1m" [⟨1000, 1, 1, 1, 1, 1⟩] 600 fullTable
      = fullTable ++ [⟨"BTC/USDT:USDT", "1m", 1000, 1, 1, 1, 1, 1, 600⟩] := by
    rw [cache_ohlcv_singleton, hprune]
    unfold upsertCandle
    rw [hf2]
  have hnew : inBucket "BTC/USDT:USDT" "1m"
      ⟨"BTC/USDT:USDT", "1m", 1000, 1, 1, 1, 1, 1, 600⟩ = true := by decide
  have hlen : ((cache_ohlcv "BTC/USDT:USDT" "1m" [⟨1000, 1, 1, 1, 1, 1⟩] 600
      fullTable).filter (inBucket "BTC/USDT:USDT" "1m")).length = 1001 := by
    rw [hupsert, List.filter_append, hbucket]
    simp only [List.filter, hnew, List.length_append, hfl]
    rfl
  exact ⟨hlen, by omega⟩

lemma bucket_filter_sublist (symbol timeframe : String) (q : CacheRow → Bool)
    (table : List CacheRow) :
    ((table.filter q).filter (inBucket symbol timeframe)).Sublist
      (table.filter (inBucket symbol timeframe)) := by
  have hcomm : (table.filter q).filter (inBucket symbol timeframe)
      = (table.filter (inBucket symbol timeframe)).filter q := by
    rw [List.filter_filter, List.filter_filter]
    congr 1
    funext r
    rw [Bool.and_comm]
  rw [hcomm]
  exact List.filter_sublist _

lemma bucketLen_upsert_le (symbol timeframe : String) (now : ℚ)
    (acc : List CacheRow) (cd : Candle) :
    ((upsertCandle symbol timeframe now acc cd).filter
        (inBucket symbol timeframe)).length
      ≤ (acc.filter (inBucket symbol timeframe)).length + 1 := by
  unfold upsertCandle
  rw [List.filter_append, List.length_append]
  have h1 := (bucket_filter_sublist symbol timeframe
    (fun r => !decide (r.symbol = symbol ∧ r.timeframe = timeframe
      ∧ r.timestamp = cd.timestamp)) acc).length_le
  have h2 : (List.filter (inBucket symbol timeframe)
      [(⟨symbol, timeframe, cd.timestamp, cd.open_price, cd.high_price, cd.low_price,
        cd.close_price, cd.volume, now⟩ : CacheRow)]).length ≤ 1 := by
    have := List.length_filter_le (inBucket symbol timeframe)
      [(⟨symbol, timeframe, cd.timestamp, cd.open_price, cd.high_price, cd.low_price,
        cd.close_price, cd.volume, now⟩ : CacheRow)]
    simpa using this
  omega

lemma bucketLen_foldl_le (symbol timeframe : String) (now : ℚ) (ds : List Candle)
    (acc : List CacheRow) :
    (((ds.foldl (upsertCandle symbol timeframe now) acc)).filter
        (inBucket symbol timeframe)).length
      ≤ (acc.filter (inBucket symbol timeframe)).length + ds.length := by
  induction ds generalizing acc with
  | nil => simp
  | cons d ds ih =>
      calc ((List.foldl (upsertCandle symbol timeframe now)
              (upsertCandle symbol timeframe now acc d) ds).filter
              (inBucket symbol timeframe)).length
          ≤ ((upsertCandle symbol timeframe now acc d).filter
              (inBucket symbol timeframe)).length + ds.length := ih _
        _ ≤ ((acc.filter (inBucket symbol timeframe)).length + 1) + ds.length := by
            have := bucketLen_upsert_le symbol timeframe now acc d
            omega
        _ = (acc.filter (inBucket symbol timeframe)).length + (d :: ds).length := by
            simp
            omega

/-- **C9 (amended).** On every cache write the bucket is pruned to its
1000 most recent timestamps *before* the new batch is inserted: with
distinct timestamps (the table's primary key) the bucket holds at most
1000 rows right after the prune, hence at most `1000 + batch size` rows
when the write completes; the overshoot is removed again at the start of
the next write. -/
theorem cache_prune_bound (symbol timeframe : String) (data : List Candle) (now : ℚ)
    (table : List CacheRow)
    (hnodup : ((table.filter (inBucket symbol timeframe)).map
      (fun r => r.timestamp)).Nodup) :
    ((pruneBucket symbol timeframe table).filter (inBucket symbol timeframe)).length
        ≤ 1000
    ∧ ((cache_ohlcv symbol timeframe data now table).filter
        (inBucket symbol timeframe)).length ≤ 1000 + data.length := by
  have hmain : ((pruneBucket symbol timeframe table).filter
      (inBucket symbol timeframe)).length ≤ 1000 := by
    set keep := keepTimestamps symbol timeframe table with hkeep
    have hsub : (((pruneBucket symbol timeframe table).filter
        (inBucket symbol timeframe)).map (fun r => r.timestamp)).Sublist
        ((table.filter (inBucket symbol timeframe)).map (fun r => r.timestamp)) :=
      List.Sublist.map _ (bucket_filter_sublist symbol timeframe _ table)
    have hnd : (((pruneBucket symbol timeframe table).filter
        (inBucket symbol timeframe)).map (fun r => r.timestamp)).Nodup :=
      hnodup.sublist hsub
    have hin : ∀ x ∈ ((pruneBucket symbol timeframe table).filter
        (inBucket symbol timeframe)).map (fun r => r.timestamp), x ∈ keep := by
      intro x hx
      rcases List.mem_map.mp hx with ⟨r, hr, rfl⟩
      rcases List.mem_filter.mp hr with ⟨hrp, hrb⟩
      rcases List.mem_filter.mp hrp with ⟨_, hcond⟩
      rw [hrb] at hcond
      simpa using hcond
    have hcard : (((pruneBucket symbol timeframe table).filter
        (inBucket symbol timeframe)).map (fun r => r.timestamp)).length
        ≤ keep.length := by
      have h1 : (((pruneBucket symbol timeframe table).filter
          (inBucket symbol timeframe)).map (fun r => r.timestamp)).toFinset.card
          ≤ keep.toFinset.card := by
        apply Finset.card_le_card
        intro x hx
        rw [List.mem_toFinset] at hx ⊢
        exact hin x hx
      calc (((pruneBucket symbol timeframe table).filter
            (inBucket symbol timeframe)).map (fun r => r.timestamp)).length
          = (((pruneBucket symbol timeframe table).filter
            (inBucket symbol timeframe)).map (fun r => r.timestamp)).toFinset.card :=
            (List.toFinset_card_of_nodup hnd).symm
        _ ≤ keep.toFinset.card := h1
        _ ≤ keep.length := List.toFinset_card_le keep
    rw [List.length_map] at hcard
    exact le_trans hcard (keepTimestamps_length_le symbol timeframe table)
  refine ⟨hmain, ?_⟩
  unfold cache_ohlcv
  calc ((data.foldl (upsertCandle symbol timeframe now)
          (pruneBucket symbol timeframe table)).filter
          (inBucket symbol timeframe)).length
      ≤ ((pruneBucket symbol timeframe table).filter
          (inBucket symbol timeframe)).length + data.length :=
        bucketLen_foldl_le symbol timeframe now data _
    _ ≤ 1000 + data.length := by omega

/-- Witness for the amended C9: an empty table and a one-candle batch. -/
theorem cache_prune_bound_witness :
    ((([] : List CacheRow).filter (inBucket "BTC/USDT:USDT" "1m")).map
      (fun r => r.timestamp)).Nodup
    ∧ (((pruneBucket "BTC/USDT:USDT" "1m" []).filter
        (inBucket "BTC/USDT:USDT" "1m")).length ≤ 1000
      ∧ ((cache_ohlcv "BTC/USDT:USDT" "1m" [⟨1, 1, 1, 1, 1, 1⟩] 5 []).filter
        (inBucket "BTC/USDT:USDT" "1m")).length
        ≤ 1000 + ([(⟨1, 1, 1, 1, 1, 1⟩ : Candle)]).length) :=
  ⟨List.nodup_nil,
    cache_prune_bound "BTC/USDT:USDT" "1m" [⟨1, 1, 1, 1, 1, 1⟩] 5 [] List.nodup_nil⟩

/-! ## Claim C8 — fetch/cache policy -/

lemma get_cached_ohlcv_iff (symbol timeframe : String) (limit : ℕ) (max_age now : ℚ)
    (table : List CacheRow) :
    (∃ rows, get_cached_ohlcv symbol timeframe limit max_age now table = some rows)
      ↔ min limit 2 ≤ (table.filter (fun r =>
          inBucket symbol timeframe r
            && decide (now - max_age < r.cached_at))).length := by
  simp only [get_cached_ohlcv]
  split
  · rename_i hcond
    simp only [List.length_take, length_sortRowsDesc] at hcond
    exact iff_of_true ⟨_, rfl⟩ (le_trans hcond (min_le_right _ _))
  · rename_i hcond
    apply iff_of_false
    · simp
    · intro hc
      apply hcond
      simp only [List.length_take, length_sortRowsDesc]
      exact le_min (min_le_left _ _) hc

lemma get_cached_ohlcv_fresh (symbol timeframe : String) (limit : ℕ) (max_age now : ℚ)
    (table : List CacheRow) (rows : List CacheRow)
    (h : get_cached_ohlcv symbol timeframe limit max_age now table = some rows) :
    ∀ r ∈ rows, now - max_age < r.cached_at := by
  simp only [get_cached_ohlcv] at h
  split at h
  · simp only [Option.some.injEq] at h
    subst h
    intro r hr
    rw [List.mem_reverse] at hr
    have h2 : r ∈ sortRowsDesc (table.filter (fun r =>
        inBucket symbol timeframe r && decide (now - max_age < r.cached_at))) :=
      List.take_subset _ _ hr
    rw [mem_sortRowsDesc] at h2
    have h3 := (List.mem_filter.mp h2).2
    rw [Bool.and_eq_true] at h3
    exact of_decide_eq_true h3.2
  · exact absurd h (by simp)

lemma get_cached_ohlcv_length (symbol timeframe : String) (limit : ℕ) (max_age now : ℚ)
    (table : List CacheRow) (rows : List CacheRow)
    (h : get_cached_ohlcv symbol timeframe limit max_age now table = some rows) :
    min limit 2 ≤ rows.length := by
  simp only [get_cached_ohlcv] at h
  split at h
  · rename_i hcond
    simp only [Option.some.injEq] at h
    subst h
    simpa using hcond
  · exact absurd h (by simp)

lemma lookupLastFetch_update (m : List ((String × String) × ℚ)) (k : String × String)
    (v : ℚ) : lookupLastFetch ((k, v) :: m) k = v := by
  simp [lookupLastFetch]

/-- **C8 (amended).** Within the per-(symbol, timeframe) minimum
re-fetch interval the cache is consulted first and only rows cached
within twice that interval are served; the request falls through to a
live API fetch (written through the cache, stamping the fetch time)
exactly when the cache cannot supply at least `min(limit, 2)` fresh
rows — the hit threshold is `min(limit, 2)`, not the requested `limit`. -/
theorem cache_fetch_policy (symbol timeframe : String) (limit : ℕ) (now : ℚ)
    (api_data : List Candle) (st : FetchState)
    (hthrottle : now - lookupLastFetch st.last_ohlcv_fetch (symbol, timeframe)
        < minFetchInterval timeframe)
    (hlim : 1 ≤ limit) :
    ((fetch_ohlcv symbol timeframe limit now api_data st).2.1 = FetchSource.cache
      ↔ min limit 2 ≤ (st.table.filter (fun r =>
          inBucket symbol timeframe r
            && decide (now - minFetchInterval timeframe * 2 < r.cached_at))).length)
    ∧ (∀ rows, get_cached_ohlcv symbol timeframe limit (minFetchInterval timeframe * 2)
          now st.table = some rows →
        ∀ r ∈ rows, now - minFetchInterval timeframe * 2 < r.cached_at)
    ∧ ((fetch_ohlcv symbol timeframe limit now api_data st).2.1 = FetchSource.api →
        (fetch_ohlcv symbol timeframe limit now api_data st).2.2.table
          = cache_ohlcv symbol timeframe api_data now st.table
        ∧ lookupLastFetch
            (fetch_ohlcv symbol timeframe limit now api_data st).2.2.last_ohlcv_fetch
            (symbol, timeframe) = now) := by
  rcases hget : get_cached_ohlcv symbol timeframe limit (minFetchInterval timeframe * 2)
      now st.table with _ | rows
  · have hres : fetch_ohlcv symbol timeframe limit now api_data st
        = live_fetch symbol timeframe now api_data st := by
      simp only [fetch_ohlcv]
      rw [if_pos hthrottle, hget]
    refine ⟨?_, ?_, ?_⟩
    · rw [hres]
      apply iff_of_false
      · simp [live_fetch]
      · intro hc
        rcases (get_cached_ohlcv_iff symbol timeframe limit
            (minFetchInterval timeframe * 2) now st.table).mpr hc with ⟨rows2, hr⟩
        rw [hget] at hr
        exact Option.noConfusion hr
    · intro rows2 h2
      exact absurd h2 (by simp)
    · intro _
      rw [hres]
      exact ⟨rfl, lookupLastFetch_update _ _ _⟩
  · have hlen2 := get_cached_ohlcv_length _ _ _ _ _ _ _ hget
    have h12 : 1 ≤ min limit 2 := le_min hlim (by norm_num)
    have hne : ¬ rows.length = 0 := by omega
    have hres : fetch_ohlcv symbol timeframe limit now api_data st
        = (rows.map CacheRow.toCandle, FetchSource.cache, st) := by
      simp only [fetch_ohlcv]
      rw [if_pos hthrottle]
      simp only [hget]
      rw [if_neg hne]
    refine ⟨?_, ?_, ?_⟩
    · rw [hres]
      exact iff_of_true rfl ((get_cached_ohlcv_iff _ _ _ _ _ _).mp ⟨rows, hget⟩)
    · intro rows2 h2
      injection h2 with h3
      subst h3
      exact get_cached_ohlcv_fresh _ _ _ _ _ _ _ hget
    · intro hx
      rw [hres] at hx
      exact absurd hx (by simp)

/-- Witness for the amended C8: empty state, limit 1, inside the
throttle window (`10 − 0 < 30`): the empty cache cannot serve, so the
fetch goes live and is written through. -/
theorem cache_fetch_policy_witness :
    (((10:ℚ) - lookupLastFetch (⟨[], []⟩ : FetchState).last_ohlcv_fetch
        ("BTC/USDT:USDT", "1m") < minFetchInterval "1m") ∧ 1 ≤ 1)
    ∧ (((fetch_ohlcv "BTC/USDT:USDT" "1m" 1 10 [⟨1, 1, 1, 1, 1, 1⟩]
          ⟨[], []⟩).2.1 = FetchSource.cache
      ↔ min 1 2 ≤ ((⟨[], []⟩ : FetchState).table.filter (fun r =>
          inBucket "BTC/USDT:USDT" "1m" r
            && decide ((10:ℚ) - minFetchInterval "1m" * 2 < r.cached_at))).length)
    ∧ (∀ rows, get_cached_ohlcv "BTC/USDT:USDT" "1m" 1 (minFetchInterval "1m" * 2)
          10 (⟨[], []⟩ : FetchState).table = some rows →
        ∀ r ∈ rows, (10:ℚ) - minFetchInterval "1m" * 2 < r.cached_at)
    ∧ ((fetch_ohlcv "BTC/USDT:USDT" "1m" 1 10 [⟨1, 1, 1, 1, 1, 1⟩]
          ⟨[], []⟩).2.1 = FetchSource.api →
        (fetch_ohlcv "BTC/USDT:USDT" "1m" 1 10 [⟨1, 1, 1, 1, 1, 1⟩]
          ⟨[], []⟩).2.2.table
          = cache_ohlcv "BTC/USDT:USDT" "1m" [⟨1, 1, 1, 1, 1, 1⟩] 10
              (⟨[], []⟩ : FetchState).table
        ∧ lookupLastFetch
            (fetch_ohlcv "BTC/USDT:USDT" "1m" 1 10 [⟨1, 1, 1, 1, 1, 1⟩]
              ⟨[], []⟩).2.2.last_ohlcv_fetch
            ("BTC/USDT:USDT", "1m") = 10)) :=
  ⟨⟨by norm_num [lookupLastFetch, minFetchInterval], by norm_num⟩,
    cache_fetch_policy "BTC/USDT:USDT" "1m" 1 10 [⟨1, 1, 1, 1, 1, 1⟩] ⟨[], []⟩
      (by norm_num [lookupLastFetch, minFetchInterval]) (by norm_num)⟩

/-- Concrete throttle state for the C8 counterexample: last live fetch
10 seconds ago, two fresh cached rows. -/
def stC8 : FetchState :=
  ⟨[(("BTC/USDT:USDT", "1m"), 990)],
    [⟨"BTC/USDT:USDT", "1m", 1, 1, 1, 1, 1, 1, 980⟩,
     ⟨"BTC/USDT:USDT", "1m", 2, 1, 1, 1, 1, 1, 981⟩]⟩

/-- **C8 is false on the code**: a throttled request for `limit = 3`
candles is served from the cache with only 2 rows — the hit threshold is
`min(limit, 2)`, so the request does *not* fall through to a live fetch
even though the cache cannot supply enough fresh rows for the requested
limit. -/
theorem cache_hit_below_limit_cex :
    ((1000:ℚ) - lookupLastFetch stC8.last_ohlcv_fetch ("BTC/USDT:USDT", "1m")
        < minFetchInterval "1m")
    ∧ (fetch_ohlcv "BTC/USDT:USDT" "1m" 3 1000 [] stC8).2.1 = FetchSource.cache
    ∧ (fetch_ohlcv "BTC/USDT:USDT" "1m" 3 1000 [] stC8).1.length = 2
    ∧ 2 < 3 := by
  have hlook : lookupLastFetch stC8.last_ohlcv_fetch ("BTC/USDT:USDT", "1m") = 990 := rfl
  have hmin : minFetchInterval "1m" = 30 := rfl
  have hthr : (1000:ℚ) - lookupLastFetch stC8.last_ohlcv_fetch ("BTC/USDT:USDT", "1m")
      < minFetchInterval "1m" := by
    rw [hlook, hmin]
    norm_num
  have hfresh : stC8.table.filter (fun r =>
      inBucket "BTC/USDT:USDT" "1m" r
        && decide ((1000:ℚ) - minFetchInterval "1m" * 2 < r.cached_at)) = stC8.table := by
    apply List.filter_eq_self.mpr
    intro r hr
    fin_cases hr <;>
      · simp [inBucket, minFetchInterval, decide_eq_true_eq]
        norm_num
  have hget : get_cached_ohlcv "BTC/USDT:USDT" "1m" 3 (minFetchInterval "1m" * 2) 1000
      stC8.table
      = some [⟨"BTC/USDT:USDT", "1m", 1, 1, 1, 1, 1, 1, 980⟩,
              ⟨"BTC/USDT:USDT", "1m", 2, 1, 1, 1, 1, 1, 981⟩] := by
    simp only [get_cached_ohlcv]
    rw [hfresh]
    rfl
  have hres : fetch_ohlcv "BTC/USDT:USDT" "1m" 3 1000 [] stC8
      = ([⟨"BTC/USDT:USDT", "1m", 1, 1, 1, 1, 1, 1, 980⟩,
          ⟨"BTC/USDT:USDT", "1m", 2, 1, 1, 1, 1, 1, 981⟩].map CacheRow.toCandle,
         FetchSource.cache, stC8) := by
    simp only [fetch_ohlcv]
    rw [if_pos hthr]
    simp only [hget]
    rfl
  refine ⟨hthr, ?_, ?_, by norm_num⟩
  · rw [hres]
  · rw [hres]
    rfl

end ScalpBot
